import Mathlib

/-!
Verification of the task-pipeline engine of the Telegram/ChatGPT/Claude/Cursor
bridge repository.

The Python sources are embedded shallowly:

* Python strings are `List Char`; `str.strip()` is `pyStrip`, `str.startswith`
  is `List.isPrefixOf`, `str.rfind` is `pyRfind` (returning `-1` when absent,
  as in Python).
* External processes (`git`, build and test commands) are oracles: a record of
  return codes / captured output is passed in, and the embedded function
  mirrors the Python control flow over those results, additionally recording
  the sequence of commands it issued.
* The file-system task queue (`tasks/inbox`, `tasks/processing`, `tasks/done`)
  is explicit state: lists of files per partition, with `shutil.move`
  modelled as removal from one list and insertion into another.

Functions keep their source names (`_is_valid_patch`, `apply_patch`,
`create_branch`, `get_current_branch`, `extract_patch`, `new_card`,
`process_card`, …).
-/

/-- Python whitespace for `str.strip()` restricted to the ASCII range:
space, tab, newline, carriage return, vertical tab, form feed. -/
def isPySpace (c : Char) : Bool :=
  c = ' ' || c = '\t' || c = '\n' || c = '\r' || c = Char.ofNat 11 || c = Char.ofNat 12

/-- Remove leading Python whitespace (`str.lstrip()`). -/
def stripLeading (l : List Char) : List Char := l.dropWhile isPySpace

/-- Remove trailing Python whitespace (`str.rstrip()`). -/
def stripTrailing (l : List Char) : List Char := (l.reverse.dropWhile isPySpace).reverse

/-- Python `str.strip()`: remove leading and trailing whitespace. -/
def pyStrip (l : List Char) : List Char := stripTrailing (stripLeading l)

/-- `TaskProcessor._is_valid_patch` (claude_runner.py:306-309):
`valid_starts = ("diff --git", "Index:", "---", "+++")`;
`any(patch.strip().startswith(s) for s in valid_starts)`. -/
def _is_valid_patch (patch : List Char) : Bool :=
  ["diff --git".data, "Index:".data, "---".data, "+++".data].any
    (fun s => s.isPrefixOf (pyStrip patch))

/-- `ClaudeImplementer._is_valid_patch` (pipeline_orchestrator.py:327-333):
same check preceded by `if not patch.strip(): return False`. -/
def orch_is_valid_patch (patch : List Char) : Bool :=
  if pyStrip patch = [] then false
  else
    ["diff --git".data, "Index:".data, "---".data, "+++".data].any
      (fun s => s.isPrefixOf (pyStrip patch))

/-- Result of one external command under `subprocess.run(capture_output=True)`. -/
structure CmdResult where
  returncode : Nat
  stdout : List Char
  stderr : List Char
deriving DecidableEq

/-- `GitRepo.get_current_branch` (claude_runner.py:108-111):
`result.stdout.strip() if result.returncode == 0 else DEFAULT_BRANCH`.
`DEFAULT_BRANCH` is the configured default branch (env default `"main"`),
passed here as an argument. -/
def get_current_branch (defaultBranch : List Char) (r : CmdResult) : List Char :=
  if r.returncode = 0 then pyStrip r.stdout else defaultBranch

/-- `GitRepo.get_current_branch` (pipeline_orchestrator.py:743-746):
`result.stdout.strip() if result.returncode == 0 else "main"`. -/
def orch_get_current_branch (r : CmdResult) : List Char :=
  if r.returncode = 0 then pyStrip r.stdout else "main".data

-- Basic facts about `pyStrip`.

theorem dropWhile_head?_false (p : Char → Bool) (l : List Char) :
    ∀ c, (l.dropWhile p).head? = some c → p c = false := by
  induction l with
  | nil => intro c hc; simp at hc
  | cons a as ih =>
      intro c hc
      by_cases hpa : p a
      · rw [List.dropWhile_cons_of_pos hpa] at hc
        exact ih c hc
      · rw [List.dropWhile_cons_of_neg hpa] at hc
        simp at hc
        simpa [← hc] using hpa

theorem dropWhile_eq_self_of_head (p : Char → Bool) (l : List Char)
    (h : ∀ c, l.head? = some c → p c = false) : l.dropWhile p = l := by
  cases l with
  | nil => rfl
  | cons a as =>
      have : p a = false := h a rfl
      simp [List.dropWhile_cons, this]

theorem stripLeading_all_space (l : List Char) (h : ∀ c ∈ l, isPySpace c = true) :
    stripLeading l = [] := by
  unfold stripLeading
  rw [List.dropWhile_eq_nil_iff]
  intro x hx
  exact h x hx

theorem pyStrip_all_space (l : List Char) (h : ∀ c ∈ l, isPySpace c = true) :
    pyStrip l = [] := by
  unfold pyStrip
  rw [stripLeading_all_space l h]
  rfl

/-- C8: `_is_valid_patch` returns true exactly when the stripped text begins
with one of the four recognized diff-header prefixes, and returns false on any
all-whitespace (in particular empty) input. -/
theorem is_valid_patch_spec (p : List Char) :
    (_is_valid_patch p = true ↔
      ("diff --git".data.isPrefixOf (pyStrip p) = true ∨
       "Index:".data.isPrefixOf (pyStrip p) = true ∨
       "---".data.isPrefixOf (pyStrip p) = true ∨
       "+++".data.isPrefixOf (pyStrip p) = true)) ∧
    ((∀ c ∈ p, isPySpace c = true) → _is_valid_patch p = false) := by
  constructor
  · unfold _is_valid_patch
    simp [List.any_cons]
  · intro h
    unfold _is_valid_patch
    rw [pyStrip_all_space p h]
    decide

/-- Witness for C8 at concrete inputs: blank text is rejected. -/
theorem is_valid_patch_spec_witness :
    _is_valid_patch " \t\n ".data = false ∧ _is_valid_patch "".data = false :=
  ⟨(is_valid_patch_spec " \t\n ".data).2 (by decide),
   (is_valid_patch_spec "".data).2 (by decide)⟩

/-- C10: `get_current_branch` is a total function; whenever the underlying
`git rev-parse` reports nonzero status it returns the configured default
branch (the orchestrator copy returns the literal `"main"`), and a caller
cannot distinguish that fallback from a successful query that printed the
default branch. -/
theorem get_current_branch_total (defaultBranch : List Char) (r : CmdResult)
    (h : r.returncode ≠ 0) :
    get_current_branch defaultBranch r = defaultBranch ∧
    orch_get_current_branch r = "main".data ∧
    ∀ out err, pyStrip out = defaultBranch →
      get_current_branch defaultBranch ⟨0, out, err⟩ =
        get_current_branch defaultBranch r := by
  refine ⟨?_, ?_, ?_⟩
  · simp [get_current_branch, h]
  · simp [orch_get_current_branch, h]
  · intro out err hout
    simp [get_current_branch, h, hout]

/-- Witness for C10: a failing query is indistinguishable from a successful
query on the default branch. -/
theorem get_current_branch_total_witness :
    get_current_branch "main".data ⟨1, [], []⟩ = "main".data ∧
    get_current_branch "main".data ⟨0, "main\n".data, []⟩ =
      get_current_branch "main".data ⟨1, [], []⟩ := by
  have h := get_current_branch_total "main".data ⟨1, [], []⟩ (by decide)
  exact ⟨h.1, h.2.2 "main\n".data [] (by decide)⟩

-- `GitRepo` command oracles (claude_runner.py:92-170).

/-- Git commands issued by `GitRepo`; each constructor names one command
string built in the source. -/
inductive GitCmd
  /-- `git reset --hard` (`ensure_clean`) -/
  | resetHard
  /-- `git clean -fd` (`ensure_clean`) -/
  | cleanFd
  /-- `git checkout {DEFAULT_BRANCH}` (`checkout_branch`) -/
  | checkoutDefault
  /-- `git pull` -/
  | gitPull
  /-- `git checkout -b {branch_name}` -/
  | checkoutNew
  /-- `git apply --index "{patch_file}"` -/
  | applyStrict
  /-- `git apply --index --whitespace=fix "{patch_file}"` -/
  | applyRelaxed
  /-- `git add -A` -/
  | addAll
deriving DecidableEq

/-- Outcome of `GitRepo.apply_patch`: the returned `(bool, message)` pair,
plus the number of `git apply` invocations made and whether the changes were
staged (`--index` / `git add -A`). -/
structure ApplyRes where
  success : Bool
  message : List Char
  attempts : Nat
  staged : Bool
deriving DecidableEq

/-- `GitRepo.apply_patch` (claude_runner.py:136-160), with the results of the
two possible `git apply` invocations supplied as oracles: a strict
`git apply --index`, then on nonzero status exactly one retry with
`--whitespace=fix`; on success `git add -A` stages everything. The scratch
patch file is written and removed around this, which does not affect the
returned value. -/
def apply_patch (strict relaxed : CmdResult) : ApplyRes :=
  if strict.returncode ≠ 0 then
    if relaxed.returncode = 0 then
      { success := true, message := "Patch applied successfully".data
        attempts := 2, staged := true }
    else
      { success := false, message := "Patch failed: ".data ++ relaxed.stderr
        attempts := 2, staged := false }
  else
    { success := true, message := "Patch applied successfully".data
      attempts := 1, staged := true }

/-- C4: `apply_patch` makes at most two application attempts, and a patch
that fails the strict apply but succeeds under whitespace-tolerant apply
yields overall success with the changes staged. -/
theorem apply_patch_bounded_retry (strict relaxed : CmdResult) :
    (apply_patch strict relaxed).attempts ≤ 2 ∧
    (strict.returncode ≠ 0 → relaxed.returncode = 0 →
      (apply_patch strict relaxed).success = true ∧
      (apply_patch strict relaxed).staged = true) := by
  constructor
  · unfold apply_patch
    split
    · split <;> simp
    · simp
  · intro hs hr
    simp [apply_patch, hs, hr]

/-- Witness for C4: a strict failure followed by a relaxed success is an
overall success in two attempts. -/
theorem apply_patch_bounded_retry_witness :
    (apply_patch ⟨1, [], []⟩ ⟨0, [], []⟩).attempts ≤ 2 ∧
    (apply_patch ⟨1, [], []⟩ ⟨0, [], []⟩).success = true ∧
    (apply_patch ⟨1, [], []⟩ ⟨0, [], []⟩).staged = true := by
  have h := apply_patch_bounded_retry ⟨1, [], []⟩ ⟨0, [], []⟩
  exact ⟨h.1, h.2 (by decide) (by decide)⟩

/-- Result of `GitRepo.create_branch`: the returned branch name, the ordered
command trace, and the error raised (the source raises none). -/
structure CBRes where
  branch : List Char
  trace : List GitCmd
  error : Option (List Char)
deriving DecidableEq

/-- `GitRepo.create_branch` (claude_runner.py:124-134) together with
`ensure_clean` (113-117) and `checkout_branch` (119-122), with the exit
status of every git command supplied as an oracle. The source runs
`git reset --hard`, `git clean -fd`, `git checkout {DEFAULT_BRANCH}`,
`git pull`, `git checkout -b {branch}` in order; each return code is bound
here exactly where the source receives it, and — as in the source — none of
them is inspected afterwards: `ensure_clean` returns the constant `True`,
the boolean result of `checkout_branch` is discarded at the call site, and
the `run` results of `git pull` and `git checkout -b` are discarded. The
branch name is `f"{prefix}/{uuid.uuid4().hex[:8]}"` with the uuid suffix
passed as an argument. -/
def create_branch (env : GitCmd → Nat) (pre suffix : List Char) : CBRes :=
  let branchName := pre ++ "/".data ++ suffix
  let _rcReset := env GitCmd.resetHard
  let _rcClean := env GitCmd.cleanFd
  let _rcCheckout := env GitCmd.checkoutDefault
  let _rcPull := env GitCmd.gitPull
  let _rcNew := env GitCmd.checkoutNew
  { branch := branchName
    trace := [GitCmd.resetHard, GitCmd.cleanFd, GitCmd.checkoutDefault,
              GitCmd.gitPull, GitCmd.checkoutNew]
    error := none }

/-- C5 counterexample: with every underlying command (including the default-
branch checkout and the new-branch creation) reporting status 1,
`create_branch` still completes without any error and returns the branch
name — the claim that it fails with `WorkspaceError` whenever a step other
than the pull reports nonzero status is false (no such error exists in the
source, and no return code is ever checked). -/
theorem create_branch_never_fails_counterexample :
    (create_branch (fun _ => 1) "auto".data "1a2b3c4d".data).error = none ∧
    (create_branch (fun _ => 1) "auto".data "1a2b3c4d".data).branch =
      "auto/1a2b3c4d".data := by
  constructor <;> rfl

/-- C5 amended: `create_branch` performs, in order, reset-hard, clean,
checkout of the configured default branch, pull, and creation of the new
branch, and returns the new branch name unconditionally; no step's exit
status — the pull's included — is checked, so the function never fails,
whatever any command reports. -/
theorem create_branch_unconditional (env : GitCmd → Nat) (pre suffix : List Char) :
    (create_branch env pre suffix).branch = pre ++ "/".data ++ suffix ∧
    (create_branch env pre suffix).trace =
      [GitCmd.resetHard, GitCmd.cleanFd, GitCmd.checkoutDefault,
       GitCmd.gitPull, GitCmd.checkoutNew] ∧
    (create_branch env pre suffix).error = none := by
  exact ⟨rfl, rfl, rfl⟩

-- Task cards and the `TaskProcessor` pipeline (bridge_bot.py, claude_runner.py).

/-- `card["kind"]`: `task|note` (bridge_bot.py:121-132). -/
inductive CardKind
  | task
  | note
deriving DecidableEq

/-- A task card as produced by `bridge_bot.new_card` and consumed by
`process_card`. Fields not read by the engine (`created_at` ISO string,
`attachments`, `status`, `user_id`) are omitted. -/
structure Card where
  id : List Char
  created_ts : Nat
  kind : CardKind
  text : List Char
deriving DecidableEq

/-- `bridge_bot.new_card` (bridge_bot.py:121-132): id is
`f"task-{uuid.uuid4().hex[:8]}"` (the random hex suffix is an argument),
`created_ts` is `int(time.time())`, and the text is stripped. -/
def new_card (kind : CardKind) (text : List Char) (hexSuffix : List Char)
    (now : Nat) : Card :=
  { id := "task-".data ++ hexSuffix
    created_ts := now
    kind := kind
    text := pyStrip text }

/-- Build/test step result (`_run_build` / `_run_tests`,
claude_runner.py:311-335): `{"skipped": True}` when no command is
configured, otherwise a dict whose `success` is `returncode == 0`. -/
inductive BTResult
  | skipped
  | ran (returncode : Nat)
deriving DecidableEq

/-- `result["build"].get("skipped") or result["build"].get("success")`
(claude_runner.py:343-344). -/
def bt_ok : BTResult → Bool
  | BTResult.skipped => true
  | BTResult.ran rc => rc == 0

/-- `TaskProcessor._run_build` (claude_runner.py:311-322): `BUILD_CMD` unset
is modelled as `none`, a configured command's result as `some r`. -/
def _run_build (cmd : Option CmdResult) : BTResult :=
  match cmd with
  | none => BTResult.skipped
  | some r => BTResult.ran r.returncode

/-- `TaskProcessor._run_tests` (claude_runner.py:324-335), identical shape. -/
def _run_tests (cmd : Option CmdResult) : BTResult :=
  match cmd with
  | none => BTResult.skipped
  | some r => BTResult.ran r.returncode

/-- `result["status"]` values produced by `process_card`. -/
inductive PCStatus
  | skipped
  | success
  | failed
deriving DecidableEq

/-- The result dict returned by `process_card`, plus `rollback`: whether the
`except` handler ran `ensure_clean()` and `checkout_branch(DEFAULT_BRANCH)`. -/
structure PCOutcome where
  status : PCStatus
  error : Option (List Char)
  branch : Option (List Char)
  build : Option BTResult
  tests : Option BTResult
  rollback : Bool
deriving DecidableEq

/-- The `except` branch of `process_card` (claude_runner.py:288-304):
reset to a clean state, check out the default branch, return a failed
result carrying the exception text. -/
def pcFailed (msg : List Char) : PCOutcome :=
  { status := PCStatus.failed, error := some msg, branch := none
    build := none, tests := none, rollback := true }

/-- Everything external that one `process_card` attempt consumes:
the collaborator's patch text and the git/build/test command results. -/
structure RunEnv where
  /-- `ClaudeInterface.generate_patch` return value (empty on API error). -/
  claudePatch : List Char
  /-- exit status of every plain git command, by command -/
  gitRc : GitCmd → Nat
  /-- `git apply --index` result -/
  applyStrict : CmdResult
  /-- `git apply --index --whitespace=fix` result -/
  applyRelaxed : CmdResult
  /-- `git commit -m ...` exit status -/
  commitRc : Nat
  /-- configured `BUILD_CMD` result, `none` when unset -/
  buildCmd : Option CmdResult
  /-- configured `TEST_CMD` result, `none` when unset -/
  testCmd : Option CmdResult
  /-- uuid hex suffix used for the branch name -/
  branchSuffix : List Char

/-- `TaskProcessor.process_card` (claude_runner.py:223-304). Control flow of
the source, with each `raise` routed to the shared `except` handler
(`pcFailed`): skip notes; create a branch; ask the collaborator for a patch;
raise `ValueError("Claude returned empty patch")` on blank output; raise
`ValueError("Invalid patch format returned")` when `_is_valid_patch`
rejects it; raise on apply failure and on commit failure; then run build and
tests, whose outcomes are recorded in the success result. -/
def process_card (env : RunEnv) (card : Card) : PCOutcome :=
  if card.kind = CardKind.note then
    { status := PCStatus.skipped, error := none, branch := none
      build := none, tests := none, rollback := false }
  else
    let branch := (create_branch env.gitRc "auto".data env.branchSuffix).branch
    let patch := env.claudePatch
    if pyStrip patch = [] then
      pcFailed "Claude returned empty patch".data
    else if _is_valid_patch patch = false then
      pcFailed "Invalid patch format returned".data
    else
      let ap := apply_patch env.applyStrict env.applyRelaxed
      if ap.success = false then
        pcFailed ("Patch application failed: ".data ++ ap.message)
      else if env.commitRc ≠ 0 then
        pcFailed "Commit failed".data
      else
        { status := PCStatus.success, error := none, branch := some branch
          build := some (_run_build env.buildCmd)
          tests := some (_run_tests env.testCmd)
          rollback := false }

/-- C7: once the patch is applied and committed, a nonzero build or test
exit status is recorded in the attached result but the task still ends with
status `success` and no rollback — build/test failure is a degraded success,
not a pipeline failure. -/
theorem build_failure_is_degraded_success (env : RunEnv) (card : Card)
    (hk : card.kind = CardKind.task)
    (hb : pyStrip env.claudePatch ≠ [])
    (hv : _is_valid_patch env.claudePatch = true)
    (ha : (apply_patch env.applyStrict env.applyRelaxed).success = true)
    (hc : env.commitRc = 0) :
    (process_card env card).status = PCStatus.success ∧
    (process_card env card).rollback = false ∧
    (process_card env card).build = some (_run_build env.buildCmd) ∧
    (process_card env card).tests = some (_run_tests env.testCmd) ∧
    (∀ r, env.buildCmd = some r → r.returncode ≠ 0 →
      (process_card env card).build = some (BTResult.ran r.returncode) ∧
      bt_ok (BTResult.ran r.returncode) = false) := by
  have hnote : ¬ card.kind = CardKind.note := by
    rw [hk]; intro h; cases h
  refine ⟨?_, ?_, ?_, ?_, ?_⟩
  · simp [process_card, hnote, hb, hv, ha, hc]
  · simp [process_card, hnote, hb, hv, ha, hc]
  · simp [process_card, hnote, hb, hv, ha, hc]
  · simp [process_card, hnote, hb, hv, ha, hc]
  · intro r hr hrc
    constructor
    · simp [process_card, hnote, hb, hv, ha, hc, _run_build, hr]
    · simpa [bt_ok] using hrc

-- The runner main loop's file motions (claude_runner.py:365-410) and the
-- orchestrator main loop's (pipeline_orchestrator.py:749-790).

/-- A backing file in a queue partition: its file name and the card stored
in it. -/
structure QFile where
  name : List Char
  card : Card
deriving DecidableEq

/-- `INBOX / f"{card['id']}.json"` (bridge_bot.py:237). -/
def card_file_name (c : Card) : List Char := c.id ++ ".json".data

/-- `pathlib.Path.stem` for the `*.json` files handled by the loops. -/
def pyStem (n : List Char) : List Char :=
  if ".json".data.isSuffixOf n then n.take (n.length - 5) else n

/-- The task directories `claude_runner.py` creates (lines 36-43): inbox,
processing and done — there is no failed partition in the source. `results`
holds the `{stem}_result.json` payloads written to done. -/
structure RunnerState where
  inbox : List QFile
  processing : List QFile
  done : List QFile
  results : List (List Char × PCOutcome)
deriving DecidableEq

/-- One iteration of the runner main loop's per-file body
(claude_runner.py:377-398): `shutil.move` the file from inbox to
processing, run `process_card`, write `{stem}_result.json` into done, and
in the `finally` block `shutil.move` the file from processing to done —
whatever `process_card` returned. -/
def handle_task (env : RunEnv) (st : RunnerState) (f : QFile) : RunnerState :=
  let st1 : RunnerState :=
    { st with inbox := st.inbox.erase f, processing := f :: st.processing }
  let r := process_card env f.card
  let st2 : RunnerState :=
    { st1 with results := (pyStem f.name ++ "_result.json".data, r) :: st1.results }
  { st2 with processing := st2.processing.erase f, done := f :: st2.done }

/-- The partitions `pipeline_orchestrator.py` touches in its main loop
(lines 36-44, 759-779): inbox, planning, done (file names only). -/
structure OrchState where
  inbox : List (List Char)
  planning : List (List Char)
  done : List (List Char)
deriving DecidableEq

/-- One iteration of the orchestrator main loop's per-file body
(pipeline_orchestrator.py:761-779): move the file from inbox to planning,
process it (the result status does not alter the file motions), write
`{stem}_complete.json` into done, and in the `finally` block
`planning_file.unlink()` — the backing file is deleted, not moved. -/
def orch_handle (st : OrchState) (fname : List Char) : OrchState :=
  let st1 : OrchState :=
    { st with inbox := st.inbox.erase fname, planning := fname :: st.planning }
  let st2 : OrchState :=
    { st1 with done := (pyStem fname ++ "_complete.json".data) :: st1.done }
  { st2 with planning := st2.planning.erase fname }

/-- A run whose collaborator returns a blank patch, all git commands
succeeding; used to exhibit failing records. -/
def envBlank : RunEnv :=
  { claudePatch := []
    gitRc := fun _ => 0
    applyStrict := ⟨0, [], []⟩
    applyRelaxed := ⟨0, [], []⟩
    commitRc := 0
    buildCmd := none
    testCmd := none
    branchSuffix := "00000000".data }

/-- Concrete failing task for the C3 counterexample. -/
def cardFail : Card := new_card CardKind.task "do something".data "deadbeef".data 100

/-- Backing file of `cardFail`. -/
def fileFail : QFile := ⟨card_file_name cardFail, cardFail⟩

/-- Runner state holding only `fileFail` in the inbox. -/
def runnerSt0 : RunnerState := ⟨[fileFail], [], [], []⟩

/-- Orchestrator state holding one file in the inbox. -/
def orchSt0 : OrchState := ⟨["task-cafef00d.json".data], [], []⟩

/-- C3 counterexample: a record whose pipeline attempt fails does NOT end in
a failed partition. In the runner, after processing a card whose attempt
failed (blank patch), the backing file sits in the done partition — the only
partitions the source creates are inbox, processing and done, so there is no
failed partition for it to reach. In the orchestrator, the backing file is
deleted by `planning_file.unlink()`: afterwards it is in no partition at
all. -/
theorem complete_routes_by_outcome_counterexample :
    (process_card envBlank cardFail).status = PCStatus.failed ∧
    fileFail ∈ (handle_task envBlank runnerSt0 fileFail).done ∧
    fileFail ∉ (handle_task envBlank runnerSt0 fileFail).processing ∧
    fileFail ∉ (handle_task envBlank runnerSt0 fileFail).inbox ∧
    "task-cafef00d.json".data ∉ (orch_handle orchSt0 "task-cafef00d.json".data).inbox ∧
    "task-cafef00d.json".data ∉ (orch_handle orchSt0 "task-cafef00d.json".data).planning ∧
    "task-cafef00d.json".data ∉ (orch_handle orchSt0 "task-cafef00d.json".data).done := by
  decide

/-- C3 amended: completing a claimed record is outcome-independent. The
runner always moves the backing file from processing to done — success and
failure alike — recording the outcome only in the result payload, and the
done partition does not depend on anything the attempt produced; the
orchestrator deletes its staged backing file. No failed partition exists. -/
theorem handle_task_routes_to_done (env env2 : RunEnv) (st : RunnerState)
    (f : QFile) (hp : f ∉ st.processing) :
    f ∈ (handle_task env st f).done ∧
    f ∉ (handle_task env st f).processing ∧
    (handle_task env st f).done = (handle_task env2 st f).done := by
  refine ⟨?_, ?_, ?_⟩
  · simp [handle_task]
  · simp only [handle_task, List.erase_cons_head]
    exact hp
  · rfl

/-- Witness for C3 (amended): concrete application to `fileFail`. -/
theorem handle_task_routes_to_done_witness :
    fileFail ∈ (handle_task envBlank runnerSt0 fileFail).done ∧
    fileFail ∉ (handle_task envBlank runnerSt0 fileFail).processing :=
  ⟨(handle_task_routes_to_done envBlank envBlank runnerSt0 fileFail (by decide)).1,
   (handle_task_routes_to_done envBlank envBlank runnerSt0 fileFail (by decide)).2.1⟩

-- C6: blank collaborator output.

/-- Concrete task card for the C6 counterexample. -/
def cardBlank : Card := new_card CardKind.task "add a null check".data "0badf00d".data 200

/-- Backing file of `cardBlank`. -/
def fileBlank : QFile := ⟨card_file_name cardBlank, cardBlank⟩

/-- Runner state holding only `fileBlank` in the inbox. -/
def runnerStBlank : RunnerState := ⟨[fileBlank], [], [], []⟩

/-- C6 counterexample: with the collaborator returning a blank string for a
kind-`task` card, the attempt does fail and the workspace is rolled back,
but the record does NOT move to a failed partition: its backing file is
moved to the done partition (the source has no failed partition, and the
raised error is a generic `ValueError`, not an `EmptyPatchError` class). -/
theorem empty_patch_counterexample :
    (process_card envBlank cardBlank).status = PCStatus.failed ∧
    (process_card envBlank cardBlank).rollback = true ∧
    (process_card envBlank cardBlank).error =
      some "Claude returned empty patch".data ∧
    fileBlank ∈ (handle_task envBlank runnerStBlank fileBlank).done ∧
    fileBlank ∉ (handle_task envBlank runnerStBlank fileBlank).processing := by
  decide

/-- C6 amended: when the Implement-stage collaborator returns a blank
(empty or whitespace-only) string for a kind-`task` card, the stage fails
with the empty-patch error (`ValueError("Claude returned empty patch")` —
no `EmptyPatchError` class exists), the workspace is reset clean and checked
out to the default branch, and the failure is recorded with status `failed`
in the result written to done — while the record's backing file is moved to
the done partition, there being no failed partition. -/
theorem empty_patch_resets_and_fails (env : RunEnv) (st : RunnerState)
    (f : QFile) (hk : f.card.kind = CardKind.task)
    (hb : pyStrip env.claudePatch = []) (hp : f ∉ st.processing) :
    (process_card env f.card).status = PCStatus.failed ∧
    (process_card env f.card).error =
      some "Claude returned empty patch".data ∧
    (process_card env f.card).rollback = true ∧
    f ∈ (handle_task env st f).done ∧
    f ∉ (handle_task env st f).processing := by
  have hnote : ¬ f.card.kind = CardKind.note := by
    rw [hk]; intro h; cases h
  refine ⟨?_, ?_, ?_, ?_, ?_⟩
  · simp [process_card, hnote, hb, pcFailed]
  · simp [process_card, hnote, hb, pcFailed]
  · simp [process_card, hnote, hb, pcFailed]
  · simp [handle_task]
  · simp only [handle_task, List.erase_cons_head]
    exact hp

/-- Witness for C6 (amended): concrete blank-patch run. -/
theorem empty_patch_resets_and_fails_witness :
    (process_card envBlank cardBlank).status = PCStatus.failed ∧
    (process_card envBlank cardBlank).rollback = true ∧
    fileBlank ∈ (handle_task envBlank runnerStBlank fileBlank).done := by
  have h := empty_patch_resets_and_fails envBlank runnerStBlank fileBlank
    (by decide) (by decide) (by decide)
  exact ⟨h.1, h.2.2.1, h.2.2.2.1⟩

/-- Concrete task card for the C7 witness. -/
def cardBuild : Card := new_card CardKind.task "implement feature".data "12345678".data 300

/-- A run where the patch is produced and applied cleanly but the configured
build command exits with status 2. -/
def envBuildFail : RunEnv :=
  { claudePatch := "diff --git a/x b/x\n".data
    gitRc := fun _ => 0
    applyStrict := ⟨0, [], []⟩
    applyRelaxed := ⟨0, [], []⟩
    commitRc := 0
    buildCmd := some ⟨2, [], "boom".data⟩
    testCmd := none
    branchSuffix := "12345678".data }

/-- Witness for C7: build configured and failing with status 2, tests not
configured; the task still ends `success` with the failure recorded. -/
theorem build_failure_is_degraded_success_witness :
    (process_card envBuildFail cardBuild).status = PCStatus.success ∧
    (process_card envBuildFail cardBuild).rollback = false ∧
    (process_card envBuildFail cardBuild).build = some (BTResult.ran 2) ∧
    bt_ok (BTResult.ran 2) = false := by
  have h := build_failure_is_degraded_success envBuildFail cardBuild
    (by decide) (by decide) (by decide) (by decide) (by decide)
  exact ⟨h.1, h.2.1, (h.2.2.2.2 ⟨2, [], "boom".data⟩ rfl (by decide)).1,
         (h.2.2.2.2 ⟨2, [], "boom".data⟩ rfl (by decide)).2⟩

-- C1: claim order of the runner main loop (claude_runner.py:375-382).
-- `sorted(INBOX.glob("*.json"))` sorts Path objects, i.e. by file-name
-- string; the loop then claims files in that order, so the next claimed
-- record is the one with the lexicographically smallest file name.

/-- Python string comparison on code points, as used by `sorted` on the
globbed file names: lexicographic, with a proper prefix smaller. -/
def strLt : List Char → List Char → Bool
  | [], [] => false
  | [], _ :: _ => true
  | _ :: _, [] => false
  | a :: as, b :: bs =>
    if a.toNat < b.toNat then true
    else if b.toNat < a.toNat then false
    else strLt as bs

theorem strLt_irrefl (a : List Char) : strLt a a = false := by
  induction a with
  | nil => rfl
  | cons x xs ih => simp [strLt, ih]

theorem strLt_asymm (a : List Char) : ∀ b, strLt a b = true → strLt b a = false := by
  induction a with
  | nil =>
      intro b hb
      cases b with
      | nil => simp [strLt] at hb
      | cons y ys => rfl
  | cons x xs ih =>
      intro b hb
      cases b with
      | nil => simp [strLt] at hb
      | cons y ys =>
          simp only [strLt] at hb ⊢
          by_cases hxy : x.toNat < y.toNat
          · have hyx : ¬ y.toNat < x.toNat := by omega
            simp [hxy, hyx]
          · by_cases hyx : y.toNat < x.toNat
            · simp [hxy, hyx] at hb
            · simp only [hxy, hyx, if_false] at hb
              simp [hxy, hyx, ih ys hb]

theorem strLt_false_trans (a : List Char) :
    ∀ b c, strLt a b = false → strLt b c = false → strLt a c = false := by
  induction a with
  | nil =>
      intro b c h1 h2
      cases b with
      | nil =>
          cases c with
          | nil => rfl
          | cons z zs => simp [strLt] at h2
      | cons y ys => simp [strLt] at h1
  | cons x xs ih =>
      intro b c h1 h2
      cases c with
      | nil => rfl
      | cons z zs =>
          cases b with
          | nil => simp [strLt] at h2
          | cons y ys =>
              simp only [strLt] at h1 h2 ⊢
              by_cases hxy : x.toNat < y.toNat
              · simp [hxy] at h1
              · by_cases hyz : y.toNat < z.toNat
                · simp [hyz] at h2
                · have hxz : ¬ x.toNat < z.toNat := by omega
                  by_cases hzx : z.toNat < x.toNat
                  · simp [hxz, hzx]
                  · have hyx : ¬ y.toNat < x.toNat := by omega
                    have hzy : ¬ z.toNat < y.toNat := by omega
                    simp only [hxy, hyx, if_false] at h1
                    simp only [hyz, hzy, if_false] at h2
                    simp [hxz, hzx, ih ys zs h1 h2]

/-- The record the runner main loop claims next: the head of
`sorted(INBOX.glob("*.json"))`, i.e. the queued file with the
lexicographically smallest name (`none` on an empty inbox). -/
def claimNext : List QFile → Option QFile
  | [] => none
  | f :: rest =>
    match claimNext rest with
    | none => some f
    | some g => some (if strLt g.name f.name then g else f)

theorem claimNext_eq_none (q : List QFile) : claimNext q = none ↔ q = [] := by
  cases q with
  | nil => simp [claimNext]
  | cons f rest =>
      simp only [claimNext]
      constructor
      · intro h
        cases hrest : claimNext rest with
        | none => rw [hrest] at h; simp at h
        | some g => rw [hrest] at h; simp at h
      · intro h
        cases h

/-- Concrete queue: the older card got the lexicographically larger random
hex suffix. -/
def cardOld : Card := new_card CardKind.task "first directive".data "ffffffff".data 100

/-- Younger card with the lexicographically smaller file name. -/
def cardNew : Card := new_card CardKind.task "second directive".data "00000000".data 200

/-- Backing file of `cardOld`. -/
def fileOld : QFile := ⟨card_file_name cardOld, cardOld⟩

/-- Backing file of `cardNew`. -/
def fileNew : QFile := ⟨card_file_name cardNew, cardNew⟩

/-- Queue holding both files. -/
def exQueue : List QFile := [fileOld, fileNew]

/-- C1 counterexample: a queued partition with two records enqueued at
creation timestamps 100 < 200 in which the claim goes to the YOUNGER record,
because file names are `task-{uuid4().hex[:8]}.json` — random hex that does
not encode creation time — and the loop claims in file-name order. The
record claimed next is not the one with the oldest creation timestamp. -/
theorem claim_order_counterexample :
    cardOld.created_ts < cardNew.created_ts ∧
    fileOld ∈ exQueue ∧
    claimNext exQueue = some fileNew ∧
    fileNew.card.created_ts = 200 := by
  decide

/-- C1 amended: tasks are claimed in lexicographic file-name order, oldest
name first: `claimNext` returns a queued record none of whose peers has a
lexicographically smaller file name. Creation order is respected only when
it happens to agree with the file-name order (the names embed a random uuid
suffix, not the creation timestamp). -/
theorem claimNext_min (q : List QFile) (f : QFile) (h : claimNext q = some f) :
    f ∈ q ∧ ∀ g ∈ q, strLt g.name f.name = false := by
  induction q generalizing f with
  | nil => simp [claimNext] at h
  | cons f0 rest ih =>
      simp only [claimNext] at h
      cases hrest : claimNext rest with
      | none =>
          rw [hrest] at h
          simp at h
          have hq : rest = [] := (claimNext_eq_none rest).1 hrest
          subst hq
          subst h
          refine ⟨List.mem_singleton.mpr rfl, ?_⟩
          intro g hg
          rw [List.mem_singleton.mp hg]
          exact strLt_irrefl _
      | some g0 =>
          rw [hrest] at h
          simp at h
          obtain ⟨hg0, hming⟩ := ih g0 hrest
          by_cases hlt : strLt g0.name f0.name = true
          · rw [if_pos hlt] at h
            subst h
            refine ⟨List.mem_cons_of_mem _ hg0, ?_⟩
            intro g hg
            rcases List.mem_cons.mp hg with hgf | hgr
            · rw [hgf]
              exact strLt_asymm _ _ hlt
            · exact hming g hgr
          · have hltf : strLt g0.name f0.name = false := by
              simpa using hlt
            rw [if_neg (by simp [hltf])] at h
            subst h
            refine ⟨List.mem_cons_self _ _, ?_⟩
            intro g hg
            rcases List.mem_cons.mp hg with hgf | hgr
            · rw [hgf]
              exact strLt_irrefl _
            · exact strLt_false_trans g.name g0.name f0.name (hming g hgr) hltf

/-- Witness for C1 (amended): the claimed record of the concrete queue is
minimal in file-name order. -/
theorem claimNext_min_witness :
    strLt fileOld.name fileNew.name = false ∧
    strLt fileNew.name fileNew.name = false :=
  ⟨(claimNext_min exQueue fileNew (by decide)).2 fileOld (by decide),
   (claimNext_min exQueue fileNew (by decide)).2 fileNew (by decide)⟩

-- C2: atomicity of the inbox-to-processing move (claude_runner.py:377-382).
-- `shutil.move` between sibling directories on one file system is a single
-- atomic rename: it succeeds for exactly one claimant, and only while the
-- backing file is still present in the inbox. The queue is therefore a
-- transition system whose states map record ids to their partition, and a
-- concurrent history of producers and claimants is an arbitrary
-- interleaving of these atomic steps.

/-- Partition of a record id, `none` while the id has no backing file. -/
inductive TaskLoc
  | queued
  | processing
  | done
deriving DecidableEq

/-- Queue state: where each record id currently lives. -/
def QState := Nat → Option TaskLoc

/-- Point update of a queue state. -/
def updLoc (s : QState) (i : Nat) (v : Option TaskLoc) : QState :=
  fun j => if j = i then v else s j

/-- Events of the concurrent history. -/
inductive QEvent
  /-- a producer writes a fresh record into the inbox (bridge_bot.py:237-238) -/
  | enqueue (i : Nat)
  /-- a claimant's `shutil.move(inbox, processing)` rename succeeds
      (claude_runner.py:382); the claimant returns record `i` -/
  | claim (i : Nat)
  /-- the finally-block `shutil.move(processing, done)` (claude_runner.py:398) -/
  | complete (i : Nat)

/-- One atomic step. A `claim` is enabled only while the backing file is in
the inbox — a rename of a file that a rival claimant already moved fails and
returns nothing. -/
inductive QStep : QState → QEvent → QState → Prop
  | enqueue (s : QState) (i : Nat) (h : s i = none) :
      QStep s (QEvent.enqueue i) (updLoc s i (some TaskLoc.queued))
  | claim (s : QState) (i : Nat) (h : s i = some TaskLoc.queued) :
      QStep s (QEvent.claim i) (updLoc s i (some TaskLoc.processing))
  | complete (s : QState) (i : Nat) (h : s i = some TaskLoc.processing) :
      QStep s (QEvent.complete i) (updLoc s i (some TaskLoc.done))

/-- A history: a sequence of atomic steps from one state to another. -/
inductive QExec : QState → List QEvent → QState → Prop
  | nil (s : QState) : QExec s [] s
  | cons {s s1 s2 : QState} {e : QEvent} {es : List QEvent} :
      QStep s e s1 → QExec s1 es s2 → QExec s (e :: es) s2

/-- The record ids returned by the claim events of a history, in order. -/
def claimedIds (es : List QEvent) : List Nat :=
  es.filterMap (fun e => match e with
    | QEvent.claim i => some i
    | _ => none)


theorem QStep_claim_inv {s s1 : QState} {j : Nat}
    (h : QStep s (QEvent.claim j) s1) :
    s j = some TaskLoc.queued ∧ s1 = updLoc s j (some TaskLoc.processing) := by
  cases h
  exact ⟨by assumption, rfl⟩

theorem QStep_keeps_claimed (s s1 : QState) (e : QEvent) (i : Nat)
    (hstep : QStep s e s1)
    (h : s i = some TaskLoc.processing ∨ s i = some TaskLoc.done) :
    s1 i = some TaskLoc.processing ∨ s1 i = some TaskLoc.done := by
  cases hstep with
  | enqueue j hj =>
      by_cases hij : i = j
      · subst hij
        rcases h with h | h <;> rw [h] at hj <;> cases hj
      · simpa [updLoc, hij] using h
  | claim j hj =>
      by_cases hij : i = j
      · subst hij
        rcases h with h | h <;> rw [h] at hj <;> cases hj
      · simpa [updLoc, hij] using h
  | complete j hj =>
      by_cases hij : i = j
      · subst hij
        simp [updLoc]
      · simpa [updLoc, hij] using h

theorem QExec_no_reclaim (sA sB : QState) (es : List QEvent) (i : Nat)
    (hexec : QExec sA es sB)
    (h : sA i = some TaskLoc.processing ∨ sA i = some TaskLoc.done) :
    i ∉ claimedIds es := by
  induction hexec with
  | nil s => simp [claimedIds]
  | @cons s s1 s2 e es hstep hnext ih =>
      have h1 := QStep_keeps_claimed s s1 e i hstep h
      cases e with
      | enqueue j => simpa [claimedIds] using ih h1
      | complete j => simpa [claimedIds] using ih h1
      | claim j =>
          simp only [claimedIds, List.filterMap_cons] at ih ⊢
          intro hmem
          rcases List.mem_cons.mp hmem with hij | hrest
          · subst hij
            have hq := (QStep_claim_inv hstep).1
            rcases h with h | h <;> rw [h] at hq <;> cases hq
          · exact ih h1 hrest

/-- C2: queue atomicity. In every history of atomic enqueue/claim/complete
steps — every interleaving of concurrent claimants with the producer — no
two claim events return the same record id: the inbox-to-processing rename
is indivisible, removes the record from the queued partition, and no step
ever puts a record back there. -/
theorem claim_next_atomic (sA sB : QState) (es : List QEvent)
    (hexec : QExec sA es sB) : (claimedIds es).Nodup := by
  induction hexec with
  | nil s => simp [claimedIds]
  | @cons s s1 s2 e es hstep hnext ih =>
      cases e with
      | enqueue j => simpa [claimedIds] using ih
      | complete j => simpa [claimedIds] using ih
      | claim j =>
          simp only [claimedIds, List.filterMap_cons]
          refine List.nodup_cons.mpr ⟨?_, ih⟩
          have hs1 : s1 = updLoc s j (some TaskLoc.processing) :=
            (QStep_claim_inv hstep).2
          refine QExec_no_reclaim s1 s2 es j hnext (Or.inl ?_)
          rw [hs1]
          simp [updLoc]

/-- Witness for C2: the concrete four-step history — enqueue 0, claim 0,
enqueue 1, claim 1 — is a valid execution, and its claimed ids are
pairwise distinct. -/
theorem claim_next_atomic_witness :
    QExec (fun _ => none)
      [QEvent.enqueue 0, QEvent.claim 0, QEvent.enqueue 1, QEvent.claim 1]
      (updLoc (updLoc (updLoc (updLoc (fun _ => none)
        0 (some TaskLoc.queued)) 0 (some TaskLoc.processing))
        1 (some TaskLoc.queued)) 1 (some TaskLoc.processing)) ∧
    (claimedIds
      [QEvent.enqueue 0, QEvent.claim 0, QEvent.enqueue 1, QEvent.claim 1]).Nodup := by
  have hexec : QExec (fun _ => none)
      [QEvent.enqueue 0, QEvent.claim 0, QEvent.enqueue 1, QEvent.claim 1]
      (updLoc (updLoc (updLoc (updLoc (fun _ => none)
        0 (some TaskLoc.queued)) 0 (some TaskLoc.processing))
        1 (some TaskLoc.queued)) 1 (some TaskLoc.processing)) := by
    refine QExec.cons (QStep.enqueue _ 0 rfl) ?_
    refine QExec.cons (QStep.claim _ 0 (by simp [updLoc])) ?_
    refine QExec.cons (QStep.enqueue _ 1 (by simp [updLoc])) ?_
    refine QExec.cons (QStep.claim _ 1 (by simp [updLoc])) ?_
    exact QExec.nil _
  exact ⟨hexec, claim_next_atomic _ _ _ hexec⟩

-- C9: `extract_patch` (claude_desktop_runner.py:117-126).

theorem prefix_head? {u x : List Char} (h : u <+: x) {c : Char}
    (hc : u.head? = some c) : x.head? = some c := by
  obtain ⟨t, rfl⟩ := h
  cases u with
  | nil => simp at hc
  | cons a u2 => simpa using hc

theorem stripTrailing_front (l : List Char) : stripTrailing l <+: l := by
  unfold stripTrailing
  have h := List.dropWhile_suffix (l := l.reverse) isPySpace
  have h2 : (l.reverse.dropWhile isPySpace).reverse <+: l.reverse.reverse :=
    List.reverse_prefix.mpr h
  simpa using h2

theorem pyStrip_head?_not_space (l : List Char) (c : Char)
    (hc : (pyStrip l).head? = some c) : isPySpace c = false := by
  unfold pyStrip at hc
  have hx : (stripLeading l).head? = some c :=
    prefix_head? (stripTrailing_front (stripLeading l)) hc
  exact dropWhile_head?_false isPySpace l c (by simpa [stripLeading] using hx)

theorem pyStrip_getLast?_not_space (l : List Char) (c : Char)
    (hc : (pyStrip l).getLast? = some c) : isPySpace c = false := by
  unfold pyStrip stripTrailing at hc
  rw [List.getLast?_reverse] at hc
  exact dropWhile_head?_false isPySpace _ c hc

theorem pyStrip_fix (l : List Char)
    (h1 : ∀ c, l.head? = some c → isPySpace c = false)
    (h2 : ∀ c, l.getLast? = some c → isPySpace c = false) :
    pyStrip l = l := by
  have hrev : ∀ c, l.reverse.head? = some c → isPySpace c = false := by
    intro c hc
    rw [List.head?_reverse] at hc
    exact h2 c hc
  unfold pyStrip stripLeading stripTrailing
  rw [dropWhile_eq_self_of_head isPySpace l h1,
      dropWhile_eq_self_of_head isPySpace l.reverse hrev, List.reverse_reverse]

theorem pyStrip_idem (l : List Char) : pyStrip (pyStrip l) = pyStrip l :=
  pyStrip_fix _ (pyStrip_head?_not_space l) (pyStrip_getLast?_not_space l)

theorem suffix_getLast? {u x : List Char} (h : u <:+ x) (hne : u ≠ []) :
    u.getLast? = x.getLast? := by
  obtain ⟨t, rfl⟩ := h
  exact (List.getLast?_append_of_ne_nil t hne).symm

/-- Python `t.rfind(pat)` for a nonempty needle: the largest index at which
`pat` occurs in `t`, or `-1` when it does not occur. -/
def pyRfind (pat t : List Char) : Int :=
  match ((List.range (t.length + 1)).filter
      (fun i => pat.isPrefixOf (t.drop i))).getLast? with
  | some i => (i : Int)
  | none => -1

theorem pyRfind_spec (pat t : List Char) (h : pyRfind pat t ≠ -1) :
    ∃ n : Nat, pyRfind pat t = (n : Int) ∧ pat <+: t.drop n := by
  unfold pyRfind at h ⊢
  cases hlast : ((List.range (t.length + 1)).filter
      (fun i => pat.isPrefixOf (t.drop i))).getLast? with
  | none => rw [hlast] at h; simp at h
  | some n =>
      refine ⟨n, rfl, ?_⟩
      have hmem := List.mem_of_getLast?_eq_some hlast
      have := (List.mem_filter.mp hmem).2
      exact List.isPrefixOf_iff_prefix.mp (by simpa using this)

/-- `extract_patch` (claude_desktop_runner.py:117-126): `None` on empty
input; otherwise strip, return the whole text when it already starts with
`diff --git` or `--- `, else cut at the last occurrence of a newline
followed by either header, or return `None` when there is none. -/
def extract_patch (text : List Char) : Option (List Char) :=
  if text = [] then none
  else if "diff --git".data.isPrefixOf (pyStrip text) ||
      "--- ".data.isPrefixOf (pyStrip text) then
    some (pyStrip text)
  else if max (pyRfind "\ndiff --git ".data (pyStrip text))
      (pyRfind "\n--- ".data (pyStrip text)) = -1 then
    none
  else
    some ((pyStrip text).drop
      ((max (pyRfind "\ndiff --git ".data (pyStrip text))
        (pyRfind "\n--- ".data (pyStrip text))).toNat + 1))

theorem cons_prefix_drop {c : Char} {p t : List Char} {n : Nat}
    (h : (c :: p) <+: t.drop n) : p <+: t.drop (n + 1) := by
  obtain ⟨w, hw⟩ := h
  have hd : t.drop (n + 1) = (t.drop n).drop 1 := (List.drop_drop 1 n t).symm
  rw [← hw] at hd
  simp at hd
  exact ⟨w, hd.symm⟩

theorem pyStrip_fix_of_suffix (text r : List Char) (hsuf : r <:+ pyStrip text)
    (hne : r ≠ []) (hhead : ∀ c, r.head? = some c → isPySpace c = false) :
    pyStrip r = r := by
  apply pyStrip_fix r hhead
  intro c hc
  rw [suffix_getLast? hsuf hne] at hc
  exact pyStrip_getLast?_not_space text c hc

theorem extract_patch_self (r : List Char) (hne : r ≠ [])
    (hfix : pyStrip r = r)
    (hp : "diff --git".data <+: r ∨ "--- ".data <+: r) :
    extract_patch r = some r := by
  unfold extract_patch
  rw [if_neg hne]
  have hcond : ("diff --git".data.isPrefixOf (pyStrip r) ||
      "--- ".data.isPrefixOf (pyStrip r)) = true := by
    rw [hfix]
    rcases hp with hp | hp
    · simp [List.isPrefixOf_iff_prefix.mpr hp]
    · simp [List.isPrefixOf_iff_prefix.mpr hp]
  rw [if_pos hcond, hfix]

/-- C9: whenever `extract_patch` returns something, the result is a suffix
of the stripped input beginning with `diff --git` or `--- `, and
`extract_patch` is idempotent on its output: run again on any returned
value, it returns that value unchanged. -/
theorem extract_patch_spec (text r : List Char)
    (h : extract_patch text = some r) :
    r <:+ pyStrip text ∧
    ("diff --git".data <+: r ∨ "--- ".data <+: r) ∧
    extract_patch r = some r := by
  unfold extract_patch at h
  by_cases h0 : text = []
  · rw [if_pos h0] at h
    cases h
  rw [if_neg h0] at h
  by_cases h1 : ("diff --git".data.isPrefixOf (pyStrip text) ||
      "--- ".data.isPrefixOf (pyStrip text)) = true
  · rw [if_pos h1] at h
    have hr : pyStrip text = r := Option.some.inj h
    subst hr
    have hp : "diff --git".data <+: pyStrip text ∨
        "--- ".data <+: pyStrip text := by
      rcases Bool.or_eq_true_iff.mp h1 with hb | hb
      · exact Or.inl (List.isPrefixOf_iff_prefix.mp hb)
      · exact Or.inr (List.isPrefixOf_iff_prefix.mp hb)
    have hne : pyStrip text ≠ [] := by
      rcases hp with hp | hp <;> obtain ⟨w, hw⟩ := hp <;> intro hnil <;>
        rw [hnil] at hw <;> cases hw
    exact ⟨List.suffix_refl _, hp,
      extract_patch_self _ hne (pyStrip_idem text) hp⟩
  · rw [if_neg h1] at h
    by_cases h2 : max (pyRfind "\ndiff --git ".data (pyStrip text))
        (pyRfind "\n--- ".data (pyStrip text)) = -1
    · rw [if_pos h2] at h
      cases h
    rw [if_neg h2] at h
    have hr := Option.some.inj h
    rcases max_choice (pyRfind "\ndiff --git ".data (pyStrip text))
        (pyRfind "\n--- ".data (pyStrip text)) with hm | hm
    · rw [hm] at h2 hr
      obtain ⟨n, hn, hpre⟩ := pyRfind_spec _ _ h2
      rw [hn] at hr
      have htn : ((n : Int).toNat + 1) = n + 1 := by simp
      rw [htn] at hr
      have hpre2 : "diff --git ".data <+: (pyStrip text).drop (n + 1) := by
        have : ('\n' :: "diff --git ".data) <+: (pyStrip text).drop n := hpre
        exact cons_prefix_drop this
      rw [hr] at hpre2
      have hsuf : r <:+ pyStrip text := by
        rw [← hr]
        exact List.drop_suffix _ _
      have hp : "diff --git".data <+: r :=
        List.IsPrefix.trans ⟨[' '], rfl⟩ hpre2
      have hne : r ≠ [] := by
        obtain ⟨w, hw⟩ := hpre2
        intro hnil
        rw [hnil] at hw
        cases hw
      have hhead : ∀ c, r.head? = some c → isPySpace c = false := by
        intro c hc
        have hd : r.head? = some 'd' := prefix_head? hpre2 rfl
        rw [hd] at hc
        cases hc
        decide
      exact ⟨hsuf, Or.inl hp,
        extract_patch_self r hne
          (pyStrip_fix_of_suffix text r hsuf hne hhead) (Or.inl hp)⟩
    · rw [hm] at h2 hr
      obtain ⟨n, hn, hpre⟩ := pyRfind_spec _ _ h2
      rw [hn] at hr
      have htn : ((n : Int).toNat + 1) = n + 1 := by simp
      rw [htn] at hr
      have hpre2 : "--- ".data <+: (pyStrip text).drop (n + 1) := by
        have : ('\n' :: "--- ".data) <+: (pyStrip text).drop n := hpre
        exact cons_prefix_drop this
      rw [hr] at hpre2
      have hsuf : r <:+ pyStrip text := by
        rw [← hr]
        exact List.drop_suffix _ _
      have hne : r ≠ [] := by
        obtain ⟨w, hw⟩ := hpre2
        intro hnil
        rw [hnil] at hw
        cases hw
      have hhead : ∀ c, r.head? = some c → isPySpace c = false := by
        intro c hc
        have hd : r.head? = some '-' := prefix_head? hpre2 rfl
        rw [hd] at hc
        cases hc
        decide
      exact ⟨hsuf, Or.inr hpre2,
        extract_patch_self r hne
          (pyStrip_fix_of_suffix text r hsuf hne hhead) (Or.inr hpre2)⟩

/-- Witness for C9: on a reply with prose before the diff, `extract_patch`
returns the suffix starting at the last diff header, and re-applying it to
that output returns it unchanged. -/
theorem extract_patch_spec_witness :
    extract_patch "ok, here it is:\ndiff --git a/x b/x".data =
      some "diff --git a/x b/x".data ∧
    extract_patch "diff --git a/x b/x".data =
      some "diff --git a/x b/x".data :=
  ⟨by decide,
   (extract_patch_spec "ok, here it is:\ndiff --git a/x b/x".data
      "diff --git a/x b/x".data (by decide)).2.2⟩
